import Mathlib

/-!
# Verification of the `env` environment-binding library

A shallow embedding of `src/env.go`: a library that populates the fields of a
struct from environment variables, driven by per-field tags (`env`,
`envDefault`, `envExpand`, `envSeparator`).

Go's reflection-driven traversal is embedded over an explicit universe of Go
types (`GoType`) and values (`GoValue`).  Mutation through `reflect.Value` is
modelled by state passing: every function that writes through a `reflect.Value`
returns the updated value together with the error, mirroring Go's
"mutate in place, return error" style.  Machine integers are modelled as
`Int`/`Nat` with explicit range checks matching the `bitSize` arguments the
source passes to `strconv`.
-/

namespace GoEnv

/-- The subset of `reflect.Kind` relevant to this library.  `other` stands for
every kind that has no entry in the built-in parser table and is neither
pointer, slice nor struct (array, map, chan, ...). -/
inductive Kind where
  | bool | string
  | int | int8 | int16 | int32 | int64
  | uint | uint8 | uint16 | uint32 | uint64
  | float32 | float64
  | ptr | slice | struct | other
deriving DecidableEq, Repr

/-- The struct tags consumed by the library (`field.Tag.Get` calls in the
source); a tag that is not declared reads as the empty string. -/
structure Tag where
  env : String := ""
  envDefault : String := ""
  envExpand : String := ""
  envSeparator : String := ""
deriving DecidableEq, Repr

/-- Go types, as far as the library inspects them.  `scalar` carries its
`reflect.Kind` together with the (possibly aliased) type name, so that the
type-keyed custom registry can distinguish e.g. `time.Duration` from `int64`.
`text` is a user-defined type whose pointer implements
`encoding.TextUnmarshaler`. -/
inductive GoType where
  | scalar (k : Kind) (name : String)
  | ptr (elem : GoType)
  | slice (elem : GoType)
  | struct (name : String) (fields : List (String × Tag × GoType))
  | text (name : String)

/-- One struct field as seen through `reflect.StructField`: name, tag, type. -/
abbrev Field := String × Tag × GoType

/-- Go values inhabiting `GoType`.  All signed integer widths share `intV`
(the width lives in the type; parsers range-check before constructing), all
unsigned widths share `uintV`, floats are kept as exact rationals.  A
`text` value remembers the last successfully unmarshaled text (`none` is the
zero value). -/
inductive GoValue where
  | boolV (b : Bool)
  | strV (s : String)
  | intV (n : Int)
  | uintV (n : Nat)
  | floatV (q : Rat)
  | ptrV (p : Option GoValue)
  | sliceV (elems : List GoValue)
  | structV (fields : List GoValue)
  | textV (t : Option String)

/-- `reflect.Type.Kind()`. -/
def kind : GoType → Kind
  | .scalar k _ => k
  | .ptr _ => .ptr
  | .slice _ => .slice
  | .struct _ _ => .struct
  | .text _ => .other

/-- `reflect.Type.Elem()` for pointer and slice types (identity elsewhere;
the source only calls `Elem` on pointers and slices). -/
def elemType : GoType → GoType
  | .ptr e => e
  | .slice e => e
  | t => t

/-- Whether `*T` implements `encoding.TextUnmarshaler`
(`reflect.New(T).Interface().(encoding.TextUnmarshaler)` succeeds).  In this
embedding exactly the `text` types do. -/
def implementsTU : GoType → Bool
  | .text _ => true
  | _ => false

/-- Go's `%q` verb on a string without escape-worthy characters. -/
def quoteGo (s : String) : String := "\"" ++ s ++ "\""

/-- How the type prints in error messages (`%s` on a `reflect.Type`). -/
def typeStr : GoType → String
  | .scalar _ n => n
  | .ptr t => "*" ++ typeStr t
  | .slice t => "[]" ++ typeStr t
  | .struct n _ => n
  | .text n => n

/-- The errors the library can return, as structured data. -/
inductive GoErr where
  | notAStructPtr
  | tagOptionNotSupported (opt : String)
  | requiredNotSet (key : String)
  | parseFieldError (fieldName typeName msg : String)
  | noParserFor (fieldName typeName : String)
  | ptrSliceUnsupported (fieldName typeName : String)
deriving DecidableEq, Repr

/-- The `Error()` string of each error, mirroring the `fmt` format strings in
the source (note the doubled quotes around the key in the required-variable
message: the source wraps `%q` in explicit quotes). -/
def message : GoErr → String
  | .notAStructPtr => "env: expected a pointer to a Struct"
  | .tagOptionNotSupported o => "env: tag option " ++ quoteGo o ++ " not supported"
  | .requiredNotSet k =>
      "env: required environment variable \"" ++ quoteGo k ++ "\" is not set"
  | .parseFieldError f t m =>
      "env: parse error on field " ++ quoteGo f ++ " of type " ++ quoteGo t ++ ": " ++ m
  | .noParserFor f t =>
      "env: no parser found for field " ++ quoteGo f ++ " of type " ++ quoteGo t
  | .ptrSliceUnsupported f t =>
      "env: point slices of built-in and aliased types are not supported: " ++ f ++ " " ++ t

/-- `ErrNotAStructPtr`. -/
def ErrNotAStructPtr : GoErr := .notAStructPtr

/-! ## Models of the Go standard-library collaborators

`strconv`, `strings` and `os` are external to the repository; they are
modelled here to the precision the source relies on. -/

/-- The process environment: an association of variable names to values
(models the key-value lookup service `os` exposes). -/
abbrev Env := List (String × String)

/-- `os.LookupEnv`. -/
def lookupEnv (env : Env) (key : String) : Option String :=
  (env.find? (fun p => p.1 = key)).map (·.2)

/-- Decimal digits to a number; `none` on the empty list or a non-digit. -/
def digitsAcc : List Char → Nat → Option Nat
  | [], acc => some acc
  | c :: rest, acc =>
      if c.isDigit then digitsAcc rest (acc * 10 + (c.toNat - 48)) else none

/-- Value of a non-empty all-digit character list. -/
def digitsToNat? : List Char → Option Nat
  | [] => none
  | c :: rest => digitsAcc (c :: rest) 0

def syntaxErr (fn s : String) : String :=
  "strconv." ++ fn ++ ": parsing " ++ quoteGo s ++ ": invalid syntax"

def rangeErr (fn s : String) : String :=
  "strconv." ++ fn ++ ": parsing " ++ quoteGo s ++ ": value out of range"

/-- Split a leading sign off a numeral. -/
def signSplit : List Char → Bool × List Char
  | [] => (false, [])
  | c :: rest =>
      if c = '-' then (true, rest)
      else if c = '+' then (false, rest)
      else (false, c :: rest)

/-- Models `strconv.ParseInt(s, 10, bitSize)`: optional sign, decimal digits,
and a range check against the signed `bitSize`-bit range.  (Go additionally
returns the clamped value alongside the range error; every caller in the
source discards the value when the error is non-nil, so only the error is
modelled.) -/
def goParseInt (s : String) (bitSize : Nat) : Except String Int :=
  let signDigits := signSplit s.data
  match digitsToNat? signDigits.2 with
  | none => .error (syntaxErr "ParseInt" s)
  | some n =>
      let v : Int := if signDigits.1 then -(n : Int) else (n : Int)
      if v < -((2 : Int) ^ (bitSize - 1)) ∨ (2 : Int) ^ (bitSize - 1) ≤ v then
        .error (rangeErr "ParseInt" s)
      else .ok v

/-- Models `strconv.ParseUint(s, 10, bitSize)`: decimal digits (no sign
permitted) and a range check against the unsigned `bitSize`-bit range. -/
def goParseUint (s : String) (bitSize : Nat) : Except String Nat :=
  match digitsToNat? s.data with
  | none => .error (syntaxErr "ParseUint" s)
  | some n =>
      if (2 : Nat) ^ bitSize ≤ n then .error (rangeErr "ParseUint" s)
      else .ok n

/-- Models `strconv.ParseBool`. -/
def goParseBool (s : String) : Except String Bool :=
  if s = "1" ∨ s = "t" ∨ s = "T" ∨ s = "true" ∨ s = "TRUE" ∨ s = "True" then .ok true
  else if s = "0" ∨ s = "f" ∨ s = "F" ∨ s = "false" ∨ s = "FALSE" ∨ s = "False" then .ok false
  else .error (syntaxErr "ParseBool" s)

/-- Models `strconv.ParseFloat` restricted to plain decimal numerals (optional
sign, digits, optional fractional part).  Exponents, hex floats, inf/NaN and
IEEE rounding are not modelled — no claim depends on them — and the result is
kept as an exact rational. -/
def goParseFloat (s : String) (bitSize : Nat) : Except String Rat :=
  let _ := bitSize
  let signDigits := signSplit s.data
  let intPart := signDigits.2.takeWhile (fun c => c.isDigit)
  let rest := signDigits.2.dropWhile (fun c => c.isDigit)
  match digitsToNat? intPart with
  | none => .error (syntaxErr "ParseFloat" s)
  | some ip =>
      match rest with
      | [] => .ok (if signDigits.1 then -(ip : Rat) else (ip : Rat))
      | '.' :: frac =>
          match digitsToNat? frac with
          | none => .error (syntaxErr "ParseFloat" s)
          | some fp =>
              let q : Rat := (ip : Rat) + (fp : Rat) / ((10 : Rat) ^ frac.length)
              .ok (if signDigits.1 then -q else q)
      | _ => .error (syntaxErr "ParseFloat" s)

def lbrace : Char := Char.ofNat 123
def rbrace : Char := Char.ofNat 125

/-- Shell-variable name characters, as `os.Expand` accepts for plain names. -/
def isNameChar (c : Char) : Bool := c.isAlphanum || c = '_'

/-- Models `os.ExpandEnv` for ordinary variable references (braced and plain
alphanumeric names; an unset variable expands to the empty string).  Shell
special parameters and malformed references keep their text, a simplification
of `os.Expand` that no claim depends on.  The `fuel` argument makes the
recursion structural (so that it computes inside the kernel); every step
consumes at least one character, so any fuel above the input length is
exact. -/
def expandGo (env : Env) : Nat → List Char → String
  | 0, _ => ""
  | _ + 1, [] => ""
  | _ + 1, ['$'] => "$"
  | fuel + 1, '$' :: c :: rest2 =>
      if c = lbrace then
        let name := rest2.takeWhile (fun d => d ≠ rbrace)
        match rest2.dropWhile (fun d => d ≠ rbrace) with
        | _ :: rest3 =>
            ((lookupEnv env (String.mk name)).getD "") ++ expandGo env fuel rest3
        | [] => "$" ++ String.singleton lbrace ++ expandGo env fuel rest2
      else if isNameChar c then
        let name := (c :: rest2).takeWhile isNameChar
        let rest3 := rest2.dropWhile isNameChar
        ((lookupEnv env (String.mk name)).getD "") ++ expandGo env fuel rest3
      else "$" ++ String.singleton c ++ expandGo env fuel rest2
  | fuel + 1, c :: rest => String.singleton c ++ expandGo env fuel rest

/-- `os.ExpandEnv`. -/
def expandEnv (env : Env) (s : String) : String :=
  expandGo env (s.data.length + 1) s.data

/-- Models `strings.Split` for a non-empty separator (the only way the source
calls it), over character lists; `fuel` as in `expandGo`. -/
def splitGo (sep : List Char) : Nat → List Char → List Char → List (List Char)
  | 0, _, acc => [acc.reverse]
  | _ + 1, [], acc => [acc.reverse]
  | fuel + 1, c :: rest, acc =>
      if sep.isPrefixOf (c :: rest) then
        acc.reverse :: splitGo sep fuel (rest.drop (sep.length - 1)) []
      else splitGo sep fuel rest (c :: acc)

/-- `strings.Split`. -/
def goSplit (s sep : String) : List String :=
  (splitGo sep.data (s.data.length + 1) s.data []).map String.mk

/-- `strings.ToLower` (ASCII case folding suffices for the tags in play). -/
def goToLower (s : String) : String := String.mk (s.data.map Char.toLower)

/-- `strings.HasPrefix` / `HasSuffix` analogues over the character lists. -/
def goHasPrefix (s pre : String) : Bool := pre.data.isPrefixOf s.data

def goHasSuffix (s suf : String) : Bool := suf.data.isSuffixOf s.data

/-- Drop the last `n` characters (Go's `s[:len(s)-n]`). -/
def goDropRight (s : String) (n : Nat) : String :=
  String.mk (s.data.take (s.data.length - n))

/-! ## The conversion tables -/

/-- `ParserFunc`: string to converted value (`interface\x7b\x7d`) or error. -/
abbrev ParserFunc := String → Except String GoValue

/-- `CustomParsers`: the type-keyed registry.  Modelled as an association list
with first-match lookup (a Go map has unique keys, so this is faithful). -/
abbrev CustomParsers := List (GoType × ParserFunc)

mutual

/-- Structural equality of Go types, used as the map-key equality of the
custom registry. -/
def GoType.beq : GoType → GoType → Bool
  | .scalar k1 n1, .scalar k2 n2 => k1 = k2 && n1 = n2
  | .ptr a, .ptr b => GoType.beq a b
  | .slice a, .slice b => GoType.beq a b
  | .struct n1 f1, .struct n2 f2 => n1 = n2 && GoType.fieldsBeq f1 f2
  | .text n1, .text n2 => n1 = n2
  | _, _ => false

def GoType.fieldsBeq : List (String × Tag × GoType) → List (String × Tag × GoType) → Bool
  | [], [] => true
  | f :: fs, g :: gs =>
      f.1 = g.1 && f.2.1 = g.2.1 && GoType.beq f.2.2 g.2.2 && GoType.fieldsBeq fs gs
  | _, _ => false

end

/-- `funcMap[t]`: registry lookup by exact type. -/
def lookupParser (funcMap : CustomParsers) (t : GoType) : Option ParserFunc :=
  (funcMap.find? (fun p => GoType.beq p.1 t)).map (·.2)

/-- `defaultBuiltInParsers`: the scalar-kind conversion table.  Note the
`int` and `uint` entries parse with bit size 32, exactly as the source does. -/
def defaultBuiltInParsers : Kind → Option ParserFunc
  | .bool => some fun v => (goParseBool v).map GoValue.boolV
  | .string => some fun v => .ok (.strV v)
  | .int => some fun v => (goParseInt v 32).map GoValue.intV
  | .int16 => some fun v => (goParseInt v 16).map GoValue.intV
  | .int32 => some fun v => (goParseInt v 32).map GoValue.intV
  | .int64 => some fun v => (goParseInt v 64).map GoValue.intV
  | .int8 => some fun v => (goParseInt v 8).map GoValue.intV
  | .uint => some fun v => (goParseUint v 32).map GoValue.uintV
  | .uint16 => some fun v => (goParseUint v 16).map GoValue.uintV
  | .uint32 => some fun v => (goParseUint v 32).map GoValue.uintV
  | .uint64 => some fun v => (goParseUint v 64).map GoValue.uintV
  | .uint8 => some fun v => (goParseUint v 8).map GoValue.uintV
  | .float64 => some fun v => (goParseFloat v 64).map GoValue.floatV
  | .float32 => some fun v => (goParseFloat v 32).map GoValue.floatV
  | _ => none

/-- `time.Duration`: an alias of `int64`, distinguished by name. -/
def DurationType : GoType := .scalar .int64 "time.Duration"

/-- `url.URL`: a struct type; the embedding keeps only the raw string. -/
def URLType : GoType := .struct "url.URL" [("Raw", ({} : Tag), .scalar .string "string")]

/-- Modelled from the spec: the baseline duration conversion supplied by the
external `parsers` package (`time.ParseDuration`), simplified to a decimal
count of a single unit; no claim depends on its internals. -/
def goParseDuration (s : String) : Except String Int :=
  let units : List (String × Int) :=
    [("ns", 1), ("us", 1000), ("ms", 1000000), ("s", 1000000000),
     ("m", 60000000000), ("h", 3600000000000)]
  match units.find? (fun u =>
      goHasSuffix s u.1 && (digitsToNat? (goDropRight s u.1.length).data).isSome) with
  | some u =>
      match digitsToNat? (goDropRight s u.1.length).data with
      | some n => .ok ((n : Int) * u.2)
      | none => .error ("time: invalid duration " ++ s)
  | none => .error ("time: invalid duration " ++ s)

/-- Modelled from the spec: the baseline URL conversion supplied by the
external `parsers` package (`url.Parse`, which accepts essentially any
string; the parsed URL is represented by its raw text). -/
def URLFunc : ParserFunc := fun v => .ok (.structV [.strV v])

/-- The duration baseline conversion entry. -/
def DurationFunc : ParserFunc := fun v => (goParseDuration v).map GoValue.intV

/-- `defaultCustomParsers()`: the baseline registry entries. -/
def defaultCustomParsers : CustomParsers :=
  [(URLType, URLFunc), (DurationType, DurationFunc)]

/-- The registry merge in `ParseWithFuncs`: start from the baseline and let
`funcMap` override on key collision.  With first-match lookup, putting
`funcMap` first gives caller entries precedence, as the Go map update does. -/
def mergeParsers (funcMap : CustomParsers) : CustomParsers :=
  funcMap ++ defaultCustomParsers

/-! ## Zero values (`reflect.New`, fresh allocations) -/

def zeroScalar : Kind → GoValue
  | .bool => .boolV false
  | .string => .strV ""
  | .int | .int8 | .int16 | .int32 | .int64 => .intV 0
  | .uint | .uint8 | .uint16 | .uint32 | .uint64 => .uintV 0
  | .float32 | .float64 => .floatV 0
  | _ => .strV ""

mutual

/-- The zero value of a type (what `reflect.New(t)` points at). -/
def zeroValue : GoType → GoValue
  | .scalar k _ => zeroScalar k
  | .ptr _ => .ptrV none
  | .slice _ => .sliceV []
  | .struct _ fs => .structV (zeroFields fs)
  | .text _ => .textV none

def zeroFields : List (String × Tag × GoType) → List GoValue
  | [] => []
  | f :: fs => zeroValue f.2.2 :: zeroFields fs

end

/-! ## Key Resolver (`get` and helpers) -/

/-- `parseKeyForOption`: split the `env` tag on commas; first token is the
key, the rest are option flags. -/
def parseKeyForOption (key : String) : String × List String :=
  let opts := goSplit key ","
  (opts.headD "", opts.tail)

/-- `getOr`. -/
def getOr (env : Env) (key defaultValue : String) : String :=
  match lookupEnv env key with
  | some value => value
  | none => defaultValue

/-- `getRequired`: Go returns `(value, nil)` when the key is set and
`("", err)` when it is not. -/
def getRequired (env : Env) (key : String) : String × Option GoErr :=
  match lookupEnv env key with
  | some value => (value, none)
  | none => ("", some (.requiredNotSet key))

/-- The `for _, opt := range opts` loop of `get`: a `switch` whose `required`
case overwrites both value and error, whose default case overwrites only the
error, and whose empty case is a no-op (the `break` only leaves the switch). -/
def getOptsLoop (env : Env) (key : String) :
    List String → String × Option GoErr → String × Option GoErr
  | [], st => st
  | opt :: rest, (val, err) =>
      getOptsLoop env key rest
        (if opt = "" then (val, err)
         else if opt = "required" then getRequired env key
         else (val, some (.tagOptionNotSupported opt)))

/-- `get`: resolve a field's source string from its tags and the environment.
Expansion is applied unconditionally before the option loop runs. -/
def get (env : Env) (tag : Tag) : String × Option GoErr :=
  let ko := parseKeyForOption tag.env
  let val := getOr env ko.1 tag.envDefault
  let val := if goToLower tag.envExpand = "true" then expandEnv env val else val
  if ko.2.length > 0 then getOptsLoop env ko.1 ko.2 (val, none)
  else (val, none)

/-! ## Errors attached to a field -/

/-- `newParseError`: returns `nil` when the wrapped error is `nil`. -/
def newParseError (sf : Field) (e : Option String) : Option GoErr :=
  e.map (fun m => .parseFieldError sf.1 (typeStr sf.2.2) m)

/-- `newNoParserError`. -/
def newNoParserError (sf : Field) : GoErr :=
  .noParserFor sf.1 (typeStr sf.2.2)

/-! ## Value Setter and Collection Handler

Every function below that writes through a `reflect.Value` takes the field's
current value and returns the (possibly) updated value paired with the error,
modelling Go's in-place mutation.  An error return with an updated first
component means the source mutated the field before failing. -/

/-- `tm.UnmarshalText`.  Modelled from the spec: the textual-unmarshal
extension point is user code outside this repository; this embedding uses one
representative unmarshaler that rejects inputs starting with `!` (a failure
case is needed to exercise error paths) and otherwise stores the input text
atomically. -/
def textUnmarshal (v : String) : Except String String :=
  if goHasPrefix v "!" then .error ("cannot unmarshal " ++ quoteGo v) else .ok v

/-- Whether a `GoValue` is a non-nil pointer (`Kind() == Ptr && !IsNil()`
holds of the value; the kind test lives in the caller). -/
def isNonNilPtr : GoValue → Bool
  | .ptrV (some _) => true
  | _ => false

/-- `handleTextUnmarshaler`.  A nil pointer field is allocated
(`field.Set(reflect.New(...))`) *before* the interface assertion and the
unmarshal call, so the allocation persists even when either of those fails. -/
def handleTextUnmarshaler (field : GoValue) (value : String) (sf : Field) :
    GoValue × Option GoErr :=
  match sf.2.2, field with
  | .ptr pointee, .ptrV p =>
      let field2 : GoValue :=
        match p with
        | none => .ptrV (some (zeroValue pointee))
        | some inner => .ptrV (some inner)
      if implementsTU pointee then
        match textUnmarshal value with
        | .error e => (field2, newParseError sf (some e))
        | .ok s => (.ptrV (some (.textV (some s))), newParseError sf none)
      else (field2, some (newNoParserError sf))
  | fieldTy, _ =>
      -- non-pointer field: `field = field.Addr()`; the pointer to the field
      -- implements TextUnmarshaler exactly when the field type does.
      if implementsTU fieldTy then
        match textUnmarshal value with
        | .error e => (field, newParseError sf (some e))
        | .ok s => (.textV (some s), newParseError sf none)
      else (field, some (newNoParserError sf))

/-- The per-element loop of `parseTextUnmarshalers`: fresh storage per part
(`reflect.New` for pointer elements, the slice slot otherwise), unmarshal in
order, abort the whole field on the first failure.  The new slice is stored
only after every element succeeded. -/
def tuLoop (field : GoValue) (sf : Field) (elemTy : GoType) :
    List String → List GoValue → GoValue × Option GoErr
  | [], acc => (.sliceV acc, none)
  | v :: rest, acc =>
      match textUnmarshal v with
      | .error e => (field, newParseError sf (some e))
      | .ok s =>
          let sv : GoValue :=
            if kind elemTy = Kind.ptr then .ptrV (some (.textV (some s)))
            else .textV (some s)
          tuLoop field sf elemTy rest (acc ++ [sv])

/-- `parseTextUnmarshalers`: `elemTy` is the slice's element type, not
unwrapped (`field.Type().Elem()`). -/
def parseTextUnmarshalers (field : GoValue) (elemTy : GoType) (data : List String)
    (sf : Field) : GoValue × Option GoErr :=
  tuLoop field sf elemTy data []

/-- The one-level pointer unwrap of `handleSlice`
(`if elemType.Kind() == reflect.Ptr, elemType = elemType.Elem()`). -/
def unwrapPtr : GoType → GoType
  | .ptr e => e
  | t => t

/-- The parser lookup chain of `handleSlice`: custom registry first, then the
built-in table for the element's kind. -/
def lookupOrBuiltin (funcMap : CustomParsers) (t : GoType) : Option ParserFunc :=
  match lookupParser funcMap t with
  | some parserFunc => some parserFunc
  | none => defaultBuiltInParsers (kind t)

/-- The element loop of `handleSlice`: parse each part in order, convert, and
append; pointer element types hit the explicit unsupported-shape error (after
the part parsed); any parse failure aborts the field.  `elemTy` is the
unwrapped element type (for `Convert`), `sliceTy` the field's slice type. -/
def sliceLoop (field : GoValue) (sf : Field) (sliceTy elemTy : GoType)
    (parserFunc : ParserFunc) :
    List String → List GoValue → GoValue × Option GoErr
  | [], result => (.sliceV result, none)
  | part :: rest, result =>
      match parserFunc part with
      | .error e => (field, newParseError sf (some e))
      | .ok r =>
          let v := r  -- reflect.ValueOf(r).Convert(elemType): identity here,
                      -- values carry no type name in this embedding
          if kind (elemType sliceTy) = Kind.ptr then
            (field, some (.ptrSliceUnsupported sf.1 (typeStr sf.2.2)))
          else sliceLoop field sf sliceTy elemTy parserFunc rest (result ++ [v])

/-- `handleSlice`: split on the declared separator (comma when undeclared),
unwrap one pointer level off the element type, prefer element-level textual
unmarshaling, otherwise look up a converter and run the element loop. -/
def handleSlice (field : GoValue) (value : String) (sf : Field)
    (funcMap : CustomParsers) : GoValue × Option GoErr :=
  let separator := if sf.2.1.envSeparator = "" then "," else sf.2.1.envSeparator
  let parts := goSplit value separator
  let elemTy0 := elemType sf.2.2
  let elemTy := unwrapPtr elemTy0
  if implementsTU elemTy then parseTextUnmarshalers field elemTy0 parts sf
  else
    match lookupOrBuiltin funcMap elemTy with
    | none => (field, some (newNoParserError sf))
    | some parserFunc => sliceLoop field sf sf.2.2 elemTy parserFunc parts []

/-- `set`: dispatch in precedence order — collection handler for slice kinds,
else exact-type custom entry, else built-in scalar-kind converter, else the
textual-unmarshal extension point. -/
def set (field : GoValue) (sf : Field) (value : String) (funcMap : CustomParsers) :
    GoValue × Option GoErr :=
  if kind sf.2.2 = Kind.slice then handleSlice field value sf funcMap
  else
    match lookupParser funcMap sf.2.2 with
    | some parserFunc =>
        match parserFunc value with
        | .error e => (field, newParseError sf (some e))
        | .ok val => (val, none)
    | none =>
        match defaultBuiltInParsers (kind sf.2.2) with
        | some parserFunc =>
            match parserFunc value with
            | .error e => (field, newParseError sf (some e))
            | .ok val => (val, none)  -- .Convert(sf.Type): identity here
        | none => handleTextUnmarshaler field value sf

/-! ## Structure Walker -/

mutual

/-- `ParseWithFuncs`: reject anything that is not a pointer whose pointee is
a struct (a nil pointer's `Elem()` is the invalid value, also rejected),
merge the caller's parsers over the baseline, and walk the struct. -/
def ParseWithFuncs (env : Env) (v : GoValue) (t : GoType) (funcMap : CustomParsers) :
    GoValue × Option GoErr :=
  match t, v with
  | .ptr te, .ptrV (some inner) =>
      if kind te = Kind.struct then
        let parsers := mergeParsers funcMap
        let res := doParse env inner te parsers
        (.ptrV (some res.1), res.2)
      else (v, some ErrNotAStructPtr)
  | _, _ => (v, some ErrNotAStructPtr)
termination_by structural t

/-- `doParse` on a struct value: run the field loop.  (It is only ever called
with a struct; other shapes fall through untouched.) -/
def doParse (env : Env) (ref : GoValue) (t : GoType) (funcMap : CustomParsers) :
    GoValue × Option GoErr :=
  match t, ref with
  | .struct sname fields, .structV vs =>
      let _ := sname
      let res := doParseFields env funcMap fields vs
      (.structV res.1, res.2)
  | _, ref => (ref, none)
termination_by structural t

/-- The `for i := 0; i < refType.NumField(); i++` loop of `doParse`.  A
non-nil pointer field is re-submitted to the top-level entry point via
`Parse(refField.Interface())` — with an *empty* custom map, as `Parse` does.
Fields are addressable through the root pointer, so `CanSet` holds.  The
`OnEnvVarSet` observation hook only produces a side effect and is not
modelled.  Fail-fast: the first error stops the loop, keeping whatever was
already written (including the erroring field's own partial mutation). -/
def doParseFields (env : Env) (funcMap : CustomParsers) :
    List (String × Tag × GoType) → List GoValue → List GoValue × Option GoErr
  | [], vs => (vs, none)
  | _ :: _, [] => ([], none)
  | (fname, ftag, fty) :: fs, v :: vs =>
      if kind fty = Kind.ptr ∧ isNonNilPtr v then
        let res := ParseWithFuncs env v fty []
        match res.2 with
        | some e => (res.1 :: vs, some e)
        | none =>
            let rest := doParseFields env funcMap fs vs
            (res.1 :: rest.1, rest.2)
      else
        let gv := get env ftag
        match gv.2 with
        | some e => (v :: vs, some e)
        | none =>
            if gv.1 = "" then
              if kind fty = Kind.struct then
                let res := doParse env v fty funcMap
                match res.2 with
                | some e => (res.1 :: vs, some e)
                | none =>
                    let rest := doParseFields env funcMap fs vs
                    (res.1 :: rest.1, rest.2)
              else
                let rest := doParseFields env funcMap fs vs
                (v :: rest.1, rest.2)
            else
              let res := set v (fname, ftag, fty) gv.1 funcMap
              match res.2 with
              | some e => (res.1 :: vs, some e)
              | none =>
                  let rest := doParseFields env funcMap fs vs
                  (res.1 :: rest.1, rest.2)
termination_by structural fields _ => fields

end

/-- `Parse`: `ParseWithFuncs` with no caller-supplied parsers. -/
def Parse (env : Env) (v : GoValue) (t : GoType) : GoValue × Option GoErr :=
  ParseWithFuncs env v t []

/-! ## Behaviour of the option loop

The option loop of `get` processes the options in order and the last write
wins, so its outcome is governed by the last non-empty option token. -/

/-- The last non-empty option token of an option list, if any. -/
def lastNonEmpty? : List String → Option String
  | [] => none
  | o :: rest =>
      match lastNonEmpty? rest with
      | some r => some r
      | none => if o = "" then none else some o

theorem getOptsLoop_all_empty (env : Env) (key : String) (opts : List String)
    (h : lastNonEmpty? opts = none) :
    ∀ st : String × Option GoErr, getOptsLoop env key opts st = st := by
  induction opts with
  | nil => intro st; rfl
  | cons o rest ih =>
      intro st
      obtain ⟨val, err⟩ := st
      simp only [lastNonEmpty?] at h
      cases hr : lastNonEmpty? rest with
      | some r => rw [hr] at h; simp at h
      | none =>
          rw [hr] at h
          by_cases ho : o = ""
          · subst ho
            simp only [getOptsLoop, if_pos rfl]
            exact ih hr (val, err)
          · rw [if_neg ho] at h; simp at h

theorem getOptsLoop_last_required (env : Env) (key : String) (opts : List String)
    (h : lastNonEmpty? opts = some "required") :
    ∀ st : String × Option GoErr, getOptsLoop env key opts st = getRequired env key := by
  induction opts with
  | nil => simp [lastNonEmpty?] at h
  | cons o rest ih =>
      intro st
      obtain ⟨val, err⟩ := st
      simp only [lastNonEmpty?] at h
      cases hr : lastNonEmpty? rest with
      | some r =>
          rw [hr] at h
          have hr' : r = "required" := by injection h
          subst hr'
          simp only [getOptsLoop]
          exact ih hr _
      | none =>
          rw [hr] at h
          by_cases ho : o = ""
          · rw [if_pos ho] at h; simp at h
          · rw [if_neg ho] at h
            have ho' : o = "required" := by injection h
            subst ho'
            simp only [getOptsLoop, if_neg ho, if_pos rfl]
            exact getOptsLoop_all_empty env key rest hr _

theorem getOptsLoop_last_unsupported (env : Env) (key : String) (opts : List String)
    (o : String) (h : lastNonEmpty? opts = some o) (hreq : o ≠ "required") :
    ∀ st : String × Option GoErr,
      (getOptsLoop env key opts st).2 = some (.tagOptionNotSupported o) := by
  induction opts with
  | nil => simp [lastNonEmpty?] at h
  | cons o' rest ih =>
      intro st
      obtain ⟨val, err⟩ := st
      simp only [lastNonEmpty?] at h
      cases hr : lastNonEmpty? rest with
      | some r =>
          rw [hr] at h
          have hr' : r = o := by injection h
          subst hr'
          simp only [getOptsLoop]
          exact ih hr _
      | none =>
          rw [hr] at h
          by_cases ho : o' = ""
          · rw [if_pos ho] at h; simp at h
          · rw [if_neg ho] at h
            have ho' : o' = o := by injection h
            subst ho'
            simp only [getOptsLoop, if_neg ho, if_neg hreq]
            rw [getOptsLoop_all_empty env key rest hr _]

theorem getOptsLoop_val_no_required (env : Env) (key : String) (opts : List String)
    (h : "required" ∉ opts) :
    ∀ val err, (getOptsLoop env key opts (val, err)).1 = val := by
  induction opts with
  | nil => intro val err; rfl
  | cons o rest ih =>
      intro val err
      have ho : o ≠ "required" := fun hc => h (hc ▸ List.mem_cons_self o rest)
      have hrest : "required" ∉ rest := fun hc => h (List.mem_cons_of_mem o hc)
      by_cases he : o = ""
      · simp only [getOptsLoop, if_pos he]
        exact ih hrest val err
      · simp only [getOptsLoop, if_neg he, if_neg ho]
        exact ih hrest val _

theorem getOptsLoop_val_required_mem (env : Env) (key rawv : String)
    (hkey : lookupEnv env key = some rawv) (opts : List String)
    (h : "required" ∈ opts) :
    ∀ st : String × Option GoErr, (getOptsLoop env key opts st).1 = rawv := by
  induction opts with
  | nil => cases h
  | cons o rest ih =>
      intro st
      obtain ⟨val, err⟩ := st
      by_cases hr : "required" ∈ rest
      · simp only [getOptsLoop]
        exact ih hr _
      · have ho : o = "required" := by
          rcases List.mem_cons.mp h with h1 | h2
          · exact h1.symm
          · exact absurd h2 hr
        subst ho
        have hne : ¬("required" = "") := by decide
        simp only [getOptsLoop, if_neg hne, if_pos rfl]
        have : getRequired env key = (rawv, none) := by
          simp [getRequired, hkey]
        rw [this]
        exact getOptsLoop_val_no_required env key rest hr rawv none

/-! ## Claim C9 -/

/-- C9: when a field's `envExpand` tag is case-insensitively `"true"` and its
annotation carries the `required` option, and the base key is present in the
environment, the resolved string is the raw environment value with no
`$VAR` substitution applied — the required re-resolution overwrites the
previously expanded value. -/
theorem required_overwrites_expansion (env : Env) (tag : Tag) (rawv : String)
    (hexp : goToLower tag.envExpand = "true")
    (hreq : "required" ∈ (parseKeyForOption tag.env).2)
    (hkey : lookupEnv env (parseKeyForOption tag.env).1 = some rawv) :
    (get env tag).1 = rawv := by
  have hne : (parseKeyForOption tag.env).2 ≠ [] := List.ne_nil_of_mem hreq
  have hlen : (parseKeyForOption tag.env).2.length > 0 :=
    List.length_pos.mpr hne
  simp only [get]
  rw [if_pos hlen]
  exact getOptsLoop_val_required_mem env _ rawv hkey _ hreq _

def c9Raw : String := "$" ++ String.singleton lbrace ++ "X" ++ String.singleton rbrace

def c9Env : Env := [("K", c9Raw), ("X", "val")]

def c9Tag : Tag := { env := "K,required", envExpand := "TRUE", envDefault := "unused" }

theorem required_overwrites_expansion_witness :
    goToLower c9Tag.envExpand = "true" ∧
    "required" ∈ (parseKeyForOption c9Tag.env).2 ∧
    lookupEnv c9Env (parseKeyForOption c9Tag.env).1 = some c9Raw ∧
    (get c9Env c9Tag).1 = c9Raw ∧
    expandEnv c9Env c9Raw = "val" :=
  ⟨rfl, by decide, rfl,
   required_overwrites_expansion c9Env c9Tag c9Raw rfl (by decide) rfl, rfl⟩

/-! ## Claim C1 -/

def c1Ty : GoType :=
  .ptr (.struct "S"
    [("F", { env := "K,required,foo", envDefault := "5" }, .scalar .int "int")])

/-- C1 counterexample: a field whose annotation includes the `required`
option (followed by an unsupported one) and whose key `K` is absent: the
parse fails with the unsupported-option error, not with a missing-required
error naming `K`. -/
theorem required_missing_counterexample :
    Parse [] (.ptrV (some (.structV [.intV 0]))) c1Ty =
      (.ptrV (some (.structV [.intV 0])), some (.tagOptionNotSupported "foo")) ∧
    GoErr.tagOptionNotSupported "foo" ≠ GoErr.requiredNotSet "K" :=
  ⟨rfl, by decide⟩

/-- C1 (amended): when `required` is the *last non-empty* option of the
field's annotation and the base key is absent, resolution fails with the
missing-required error naming that key — regardless of any default-value
annotation — and the walker aborts with it. -/
theorem required_missing_aborts (env : Env) (tag : Tag) (fm : CustomParsers)
    (fname : String) (fty : GoType) (fs : List Field) (v : GoValue)
    (vs : List GoValue)
    (hlast : lastNonEmpty? (parseKeyForOption tag.env).2 = some "required")
    (hmiss : lookupEnv env (parseKeyForOption tag.env).1 = none)
    (hbr : ¬(kind fty = Kind.ptr ∧ isNonNilPtr v = true)) :
    get env tag = ("", some (.requiredNotSet (parseKeyForOption tag.env).1)) ∧
    (∃ pre suf, message (.requiredNotSet (parseKeyForOption tag.env).1) =
        pre ++ (parseKeyForOption tag.env).1 ++ suf) ∧
    doParseFields env fm ((fname, tag, fty) :: fs) (v :: vs) =
      (v :: vs, some (.requiredNotSet (parseKeyForOption tag.env).1)) := by
  have hne : (parseKeyForOption tag.env).2 ≠ [] := by
    intro hc
    rw [hc] at hlast
    simp [lastNonEmpty?] at hlast
  have hlen : (parseKeyForOption tag.env).2.length > 0 :=
    List.length_pos.mpr hne
  have hget : get env tag =
      ("", some (.requiredNotSet (parseKeyForOption tag.env).1)) := by
    simp only [get]
    rw [if_pos hlen, getOptsLoop_last_required env _ _ hlast]
    simp [getRequired, hmiss]
  refine ⟨hget,
    ⟨"env: required environment variable \"" ++ "\"", "\"" ++ "\" is not set",
      by simp only [message, quoteGo, String.append_assoc]⟩, ?_⟩
  simp only [doParseFields]
  rw [if_neg hbr, hget]

def c1wTag : Tag := { env := "K,required", envDefault := "5" }

theorem required_missing_aborts_witness :
    lastNonEmpty? (parseKeyForOption c1wTag.env).2 = some "required" ∧
    lookupEnv [] (parseKeyForOption c1wTag.env).1 = none ∧
    get [] c1wTag = ("", some (.requiredNotSet "K")) ∧
    doParseFields [] [] [("F", c1wTag, .scalar .int "int")] [.intV 0] =
      ([.intV 0], some (.requiredNotSet "K")) := by
  have h := required_missing_aborts [] c1wTag [] "F" (.scalar .int "int") []
    (.intV 0) [] (by decide) rfl (by decide)
  exact ⟨by decide, rfl, h.1, h.2.2⟩

/-! ## Claim C6 -/

/-- C6 counterexample: the annotation `K,foo,required` carries the option
token `foo` (neither empty nor `required`), yet with `K` set resolution
succeeds without any error, because the later `required` option overwrites
the pending unsupported-option error; the whole parse succeeds. -/
theorem unsupported_option_counterexample :
    "foo" ∈ (parseKeyForOption "K,foo,required").2 ∧
    get [("K", "v")] ({ env := "K,foo,required" } : Tag) = ("v", none) ∧
    Parse [("K", "v")] (.ptrV (some (.structV [.strV ""])))
        (.ptr (.struct "S"
          [("F", { env := "K,foo,required" }, .scalar .string "string")])) =
      (.ptrV (some (.structV [.strV "v"])), none) :=
  ⟨by decide, rfl, rfl⟩

/-- C6 (amended): when the *last non-empty* option token of a field's
annotation is not `required` (options are processed in order, last write
wins), resolution is a terminal error whose message contains that option
name, and the walker aborts with it. -/
theorem unsupported_option_aborts (env : Env) (tag : Tag) (fm : CustomParsers)
    (o fname : String) (fty : GoType) (fs : List Field) (v : GoValue)
    (vs : List GoValue)
    (hlast : lastNonEmpty? (parseKeyForOption tag.env).2 = some o)
    (hreq : o ≠ "required")
    (hbr : ¬(kind fty = Kind.ptr ∧ isNonNilPtr v = true)) :
    (get env tag).2 = some (.tagOptionNotSupported o) ∧
    (∃ pre suf, message (.tagOptionNotSupported o) = pre ++ o ++ suf) ∧
    doParseFields env fm ((fname, tag, fty) :: fs) (v :: vs) =
      (v :: vs, some (.tagOptionNotSupported o)) := by
  have hne : (parseKeyForOption tag.env).2 ≠ [] := by
    intro hc
    rw [hc] at hlast
    simp [lastNonEmpty?] at hlast
  have hlen : (parseKeyForOption tag.env).2.length > 0 :=
    List.length_pos.mpr hne
  have hget2 : (get env tag).2 = some (.tagOptionNotSupported o) := by
    simp only [get]
    rw [if_pos hlen]
    exact getOptsLoop_last_unsupported env _ _ o hlast hreq _
  refine ⟨hget2,
    ⟨"env: tag option " ++ "\"", "\"" ++ " not supported",
      by simp only [message, quoteGo, String.append_assoc]⟩, ?_⟩
  simp only [doParseFields]
  rw [if_neg hbr]
  have : get env tag = ((get env tag).1, some (.tagOptionNotSupported o)) := by
    rw [← hget2]
  rw [this]

def c6Tag : Tag := { env := "K,required,foo", envDefault := "5" }

theorem unsupported_option_aborts_witness :
    lastNonEmpty? (parseKeyForOption c6Tag.env).2 = some "foo" ∧
    (get [] c6Tag).2 = some (.tagOptionNotSupported "foo") ∧
    doParseFields [] [] [("F", c6Tag, .scalar .int "int")] [.intV 0] =
      ([.intV 0], some (.tagOptionNotSupported "foo")) := by
  have h := unsupported_option_aborts [] c6Tag [] "foo" "F" (.scalar .int "int")
    [] (.intV 0) [] (by decide) (by decide) (by decide)
  exact ⟨by decide, h.1, h.2.2⟩

/-! ## Claim C2 -/

/-- C2: for a non-sequence field with a non-empty resolved string, the Value
Setter consults, in order: the exact-type entry of the (merged) custom
registry, then the built-in converter for the field's underlying kind, and
only failing both the textual-unmarshal extension point; in particular a
custom entry for a type shadows the built-in converter for that type's
kind. -/
theorem set_converter_precedence (field : GoValue) (sf : Field) (value : String)
    (fm : CustomParsers) (hk : kind sf.2.2 ≠ Kind.slice) (hv : value ≠ "") :
    (∀ pf, lookupParser fm sf.2.2 = some pf →
        set field sf value fm =
          match pf value with
          | .error e => (field, newParseError sf (some e))
          | .ok val => (val, none)) ∧
    (∀ pf, lookupParser fm sf.2.2 = none →
        defaultBuiltInParsers (kind sf.2.2) = some pf →
        set field sf value fm =
          match pf value with
          | .error e => (field, newParseError sf (some e))
          | .ok val => (val, none)) ∧
    (lookupParser fm sf.2.2 = none →
        defaultBuiltInParsers (kind sf.2.2) = none →
        set field sf value fm = handleTextUnmarshaler field value sf) := by
  refine ⟨?_, ?_, ?_⟩
  · intro pf hpf
    simp only [set, if_neg hk, hpf]
  · intro pf h1 h2
    simp only [set, if_neg hk, h1, h2]
  · intro h1 h2
    simp only [set, if_neg hk, h1, h2]

def intTy : GoType := .scalar Kind.int "int"

def c2Custom : ParserFunc := fun _ => .ok (.intV 42)

theorem set_converter_precedence_witness :
    kind intTy ≠ Kind.slice ∧ ("7" : String) ≠ "" ∧
    (defaultBuiltInParsers (kind intTy)).isSome = true ∧
    set (.intV 0) ("F", ({} : Tag), intTy) "7" [(intTy, c2Custom)] =
      (.intV 42, none) := by
  have h := (set_converter_precedence (.intV 0) ("F", ({} : Tag), intTy) "7"
    [(intTy, c2Custom)] (by decide) (by decide)).1 c2Custom rfl
  exact ⟨by decide, by decide, rfl, by rw [h]; rfl⟩


/-! ## Claim C3 -/

/-- C3: a field whose resolved string is empty and whose error is nil is
recursed into — with the same merged registry — when its type is a plain
(non-pointer) struct, and is skipped with its stored value unchanged for any
other type; no converter is invoked on the empty string. -/
theorem empty_value_step (env : Env) (fm : CustomParsers) (fname : String)
    (ftag : Tag) (fty : GoType) (fs : List Field) (v : GoValue)
    (vs : List GoValue)
    (hbr : ¬(kind fty = Kind.ptr ∧ isNonNilPtr v = true))
    (hget : get env ftag = ("", none)) :
    doParseFields env fm ((fname, ftag, fty) :: fs) (v :: vs) =
      if kind fty = Kind.struct then
        match (doParse env v fty fm).2 with
        | some e => ((doParse env v fty fm).1 :: vs, some e)
        | none =>
            ((doParse env v fty fm).1 :: (doParseFields env fm fs vs).1,
             (doParseFields env fm fs vs).2)
      else
        (v :: (doParseFields env fm fs vs).1, (doParseFields env fm fs vs).2) := by
  simp only [doParseFields]
  rw [if_neg hbr, hget]
  rfl

def c3InnerTy : GoType := .struct "Inner" [("X", { env := "IX" }, intTy)]

theorem empty_value_step_witness :
    (¬(kind c3InnerTy = Kind.ptr ∧ isNonNilPtr (GoValue.structV [.intV 0]) = true)) ∧
    get [("IX", "3")] ({} : Tag) = ("", none) ∧
    doParseFields [("IX", "3")] [] [("F", ({} : Tag), c3InnerTy)]
        [.structV [.intV 0]] = ([.structV [.intV 3]], none) ∧
    doParseFields [("IX", "3")] [] [("G", ({} : Tag), intTy)] [.intV 0] =
      ([.intV 0], none) := by
  refine ⟨by decide, rfl, ?_, ?_⟩
  · rw [empty_value_step [("IX", "3")] [] "F" ({} : Tag) c3InnerTy []
      (.structV [.intV 0]) [] (by decide) rfl]
    rfl
  · rw [empty_value_step [("IX", "3")] [] "G" ({} : Tag) intTy []
      (.intV 0) [] (by decide) rfl]
    rfl

/-! ## Claim C10 -/

theorem digitsAcc_isDigit {l : List Char} {acc n : Nat}
    (h : digitsAcc l acc = some n) : ∀ c ∈ l, c.isDigit = true := by
  induction l generalizing acc with
  | nil => intro c hc; cases hc
  | cons a l ih =>
      intro c hc
      simp only [digitsAcc] at h
      by_cases ha : a.isDigit
      · rw [if_pos ha] at h
        rcases List.mem_cons.mp hc with rfl | hmem
        · exact ha
        · exact ih h c hmem
      · rw [if_neg ha] at h; cases h

theorem signSplit_digit {c : Char} (rest : List Char) (hd : c.isDigit = true) :
    signSplit (c :: rest) = (false, c :: rest) := by
  have h1 : c ≠ '-' := by intro e; subst e; exact absurd hd (by decide)
  have h2 : c ≠ '+' := by intro e; subst e; exact absurd hd (by decide)
  simp only [signSplit, if_neg h1, if_neg h2]

/-- C10: the built-in converters for Go kinds `int` and `uint` parse with a
32-bit size limit, so any numeral at or above `2^31` (resp. `2^32`) draws a
range error from the `int` (resp. `uint`) entry — even though Go's `int` and
`uint` are 64 bits wide on the usual platforms. -/
theorem int_uint_builtin_32bit (s : String) (n : Nat)
    (hd : digitsToNat? s.data = some n) :
    (∀ pf, defaultBuiltInParsers Kind.int = some pf → 2 ^ 31 ≤ n →
        pf s = .error (rangeErr "ParseInt" s)) ∧
    (∀ pf, defaultBuiltInParsers Kind.uint = some pf → 2 ^ 32 ≤ n →
        pf s = .error (rangeErr "ParseUint" s)) := by
  constructor
  · intro pf hpf hn
    have hpf2 : pf = fun v => (goParseInt v 32).map GoValue.intV := by
      simp only [defaultBuiltInParsers] at hpf
      exact (Option.some.inj hpf).symm
    subst hpf2
    have hsign : signSplit s.data = (false, s.data) := by
      cases hsd : s.data with
      | nil => rw [hsd] at hd; simp [digitsToNat?] at hd
      | cons c rest =>
          have hdig : c.isDigit = true := by
            rw [hsd] at hd
            simp only [digitsToNat?] at hd
            exact digitsAcc_isDigit hd c (List.mem_cons_self _ _)
          exact signSplit_digit rest hdig
    have hcond : ((n : Int) < -((2 : Int) ^ (32 - 1)) ∨
        (2 : Int) ^ (32 - 1) ≤ (n : Int)) := by
      right
      have : ((2 : Int) ^ 31) ≤ (n : Int) := by exact_mod_cast hn
      simpa using this
    simp only [goParseInt, hsign, hd, Bool.false_eq_true, if_false, if_pos hcond,
      Except.map]
  · intro pf hpf hn
    have hpf2 : pf = fun v => (goParseUint v 32).map GoValue.uintV := by
      simp only [defaultBuiltInParsers] at hpf
      exact (Option.some.inj hpf).symm
    subst hpf2
    simp only [goParseUint, hd, if_pos hn, Except.map]

def c10IntParser : ParserFunc := fun v => (goParseInt v 32).map GoValue.intV

def c10UintParser : ParserFunc := fun v => (goParseUint v 32).map GoValue.uintV

theorem int_uint_builtin_32bit_witness :
    digitsToNat? ("4294967296" : String).data = some 4294967296 ∧
    2 ^ 31 ≤ 4294967296 ∧ 2 ^ 32 ≤ 4294967296 ∧
    defaultBuiltInParsers Kind.int = some c10IntParser ∧
    defaultBuiltInParsers Kind.uint = some c10UintParser ∧
    c10IntParser "4294967296" = .error (rangeErr "ParseInt" "4294967296") ∧
    c10UintParser "4294967296" = .error (rangeErr "ParseUint" "4294967296") := by
  have h := int_uint_builtin_32bit "4294967296" 4294967296 rfl
  exact ⟨rfl, by norm_num, by norm_num, rfl, rfl,
    h.1 c10IntParser rfl (by norm_num), h.2 c10UintParser rfl (by norm_num)⟩

/-! ## Claim C4 -/

theorem sliceLoop_mapM (field : GoValue) (sf : Field) (sliceTy elemTy : GoType)
    (pf : ParserFunc) (hnp : kind (elemType sliceTy) ≠ Kind.ptr) :
    ∀ (parts : List String) (rs acc : List GoValue),
      parts.mapM pf = Except.ok rs →
      sliceLoop field sf sliceTy elemTy pf parts acc = (.sliceV (acc ++ rs), none) := by
  intro parts
  induction parts with
  | nil =>
      intro rs acc h
      simp only [List.mapM_nil, pure, Except.pure, Except.ok.injEq] at h
      subst h
      simp [sliceLoop]
  | cons p ps ih =>
      intro rs acc h
      rw [List.mapM_cons] at h
      cases hp : pf p with
      | error e =>
          rw [hp] at h
          simp [Bind.bind, Except.bind] at h
      | ok r =>
          rw [hp] at h
          cases hps : ps.mapM pf with
          | error e =>
              rw [hps] at h
              simp [Bind.bind, Except.bind] at h
          | ok rs' =>
              rw [hps] at h
              simp only [Bind.bind, Except.bind, pure, Except.pure,
                Except.ok.injEq] at h
              subst h
              simp only [sliceLoop, hp, if_neg hnp]
              rw [ih rs' (acc ++ [r]) hps]
              simp

/-- C4: a sequence field with a non-empty resolved string is split on its
declared separator — a comma when none is declared — each part is converted
independently in input order, and the converted sequence replaces the field's
contents preserving part order. -/
theorem slice_split_convert (field : GoValue) (value : String) (fname : String)
    (ftag : Tag) (elTy : GoType) (fm : CustomParsers) (pf : ParserFunc)
    (rs : List GoValue)
    (hv : value ≠ "")
    (hTU : implementsTU elTy = false)
    (hnp : kind elTy ≠ Kind.ptr)
    (hpf : lookupOrBuiltin fm elTy = some pf)
    (hmap : (goSplit value
        (if ftag.envSeparator = "" then "," else ftag.envSeparator)).mapM pf =
          Except.ok rs) :
    set field (fname, ftag, .slice elTy) value fm = (.sliceV rs, none) := by
  have hun : unwrapPtr elTy = elTy := by
    cases elTy <;> first
      | rfl
      | (exact absurd rfl hnp)
  have hnp' : kind (elemType (GoType.slice elTy)) ≠ Kind.ptr := hnp
  simp only [set, handleSlice, if_pos (show kind (GoType.slice elTy) = Kind.slice from rfl)]
  show (if implementsTU (unwrapPtr (elemType (GoType.slice elTy))) = true then _ else _) = _
  rw [show elemType (GoType.slice elTy) = elTy from rfl, hun, hTU]
  simp only [Bool.false_eq_true, if_false, hpf]
  rw [sliceLoop_mapM field _ _ _ pf hnp' _ rs [] hmap]
  simp

def int32Ty : GoType := .scalar Kind.int32 "int32"

def c4Parser : ParserFunc := fun v => (goParseInt v 32).map GoValue.intV

theorem slice_split_convert_witness :
    ("1,2,3" : String) ≠ "" ∧ implementsTU int32Ty = false ∧
    kind int32Ty ≠ Kind.ptr ∧
    lookupOrBuiltin [] int32Ty = some c4Parser ∧
    (goSplit "1,2,3" ",").mapM c4Parser =
      Except.ok [.intV 1, .intV 2, .intV 3] ∧
    set (.sliceV []) ("F", ({} : Tag), .slice int32Ty) "1,2,3" [] =
      (.sliceV [.intV 1, .intV 2, .intV 3], none) := by
  refine ⟨by decide, rfl, by decide, rfl, rfl, ?_⟩
  exact slice_split_convert (.sliceV []) "1,2,3" "F" ({} : Tag) int32Ty []
    c4Parser [.intV 1, .intV 2, .intV 3] (by decide) rfl (by decide) rfl rfl

/-! ## Claim C5 -/

/-- C5 counterexample: a `[]*int` field whose resolved string is `"abc"`
fails with a parse error — the first part fails to convert before the shape
check runs — not with the unsupported-shape error describing the field and
its type. -/
theorem ptr_slice_counterexample :
    set (.sliceV []) ("F", ({} : Tag), .slice (.ptr intTy)) "abc" [] =
      (.sliceV [],
       some (.parseFieldError "F" "[]*int"
         "strconv.ParseInt: parsing \"abc\": invalid syntax")) ∧
    GoErr.parseFieldError "F" "[]*int"
        "strconv.ParseInt: parsing \"abc\": invalid syntax" ≠
      GoErr.ptrSliceUnsupported "F" "[]*int" :=
  ⟨rfl, by decide⟩

/-- C5 (amended): a sequence field whose element type is pointer to a
built-in/aliased scalar (not a textual unmarshaler) never binds successfully
on a non-empty resolved string and the field is left unchanged; the error is
the explicit unsupported-shape error naming the field and its type whenever
the first separator-part converts successfully, and the converter's parse
error otherwise. -/
theorem ptr_slice_always_fails (field : GoValue) (value : String)
    (fname : String) (ftag : Tag) (sc : GoType) (fm : CustomParsers)
    (pf : ParserFunc) (q : String) (qs : List String)
    (hv : value ≠ "")
    (hTU : implementsTU sc = false)
    (hpf : lookupOrBuiltin fm sc = some pf)
    (hsplit : goSplit value
        (if ftag.envSeparator = "" then "," else ftag.envSeparator) = q :: qs) :
    set field (fname, ftag, .slice (.ptr sc)) value fm =
      (field,
       some (match pf q with
         | .ok _ => GoErr.ptrSliceUnsupported fname (typeStr (GoType.slice (.ptr sc)))
         | .error e =>
             GoErr.parseFieldError fname (typeStr (GoType.slice (.ptr sc))) e)) := by
  simp only [set, handleSlice,
    if_pos (show kind (GoType.slice (.ptr sc)) = Kind.slice from rfl)]
  show (if implementsTU (unwrapPtr (elemType (GoType.slice (.ptr sc)))) = true
      then _ else _) = _
  rw [show unwrapPtr (elemType (GoType.slice (.ptr sc))) = sc from rfl, hTU]
  simp only [Bool.false_eq_true, if_false, hpf, hsplit]
  cases hq : pf q with
  | error e => simp [sliceLoop, hq, newParseError]
  | ok r =>
      simp only [sliceLoop, hq]
      rw [if_pos (show kind (elemType (GoType.slice (.ptr sc))) = Kind.ptr from rfl)]

theorem ptr_slice_always_fails_witness :
    ("1,2" : String) ≠ "" ∧ implementsTU intTy = false ∧
    lookupOrBuiltin [] intTy = some c10IntParser ∧
    goSplit "1,2" "," = ["1", "2"] ∧
    set (.sliceV []) ("F", ({} : Tag), .slice (.ptr intTy)) "1,2" [] =
      (.sliceV [], some (.ptrSliceUnsupported "F" "[]*int")) := by
  refine ⟨by decide, rfl, rfl, rfl, ?_⟩
  rw [ptr_slice_always_fails (.sliceV []) "1,2" "F" ({} : Tag) intTy []
    c10IntParser "1" ["2"] (by decide) rfl rfl rfl]
  rfl

/-! ## Claim C7 -/

theorem sliceLoop_error_unchanged (field : GoValue) (sf : Field)
    (sliceTy elemTy : GoType) (pf : ParserFunc) :
    ∀ (parts : List String) (acc : List GoValue),
      (sliceLoop field sf sliceTy elemTy pf parts acc).2 ≠ none →
      (sliceLoop field sf sliceTy elemTy pf parts acc).1 = field := by
  intro parts
  induction parts with
  | nil => intro acc h; simp [sliceLoop] at h
  | cons p ps ih =>
      intro acc h
      simp only [sliceLoop] at h ⊢
      cases hp : pf p with
      | error e => rfl
      | ok r =>
          rw [hp] at h
          by_cases hk : kind (elemType sliceTy) = Kind.ptr
          · simp [hk]
          · simp only [if_neg hk] at h ⊢
            exact ih _ h

theorem tuLoop_error_unchanged (field : GoValue) (sf : Field) (elemTy : GoType) :
    ∀ (data : List String) (acc : List GoValue),
      (tuLoop field sf elemTy data acc).2 ≠ none →
      (tuLoop field sf elemTy data acc).1 = field := by
  intro data
  induction data with
  | nil => intro acc h; simp [tuLoop] at h
  | cons p ps ih =>
      intro acc h
      simp only [tuLoop] at h ⊢
      cases hp : textUnmarshal p with
      | error e => rfl
      | ok s =>
          rw [hp] at h
          exact ih _ h

theorem handleSlice_error_unchanged (field : GoValue) (value : String)
    (sf : Field) (fm : CustomParsers)
    (h : (handleSlice field value sf fm).2 ≠ none) :
    (handleSlice field value sf fm).1 = field := by
  simp only [handleSlice] at h ⊢
  by_cases hTU : implementsTU (unwrapPtr (elemType sf.2.2)) = true
  · rw [if_pos hTU] at h ⊢
    exact tuLoop_error_unchanged field sf _ _ _ h
  · rw [if_neg hTU] at h ⊢
    cases hlp : lookupOrBuiltin fm (unwrapPtr (elemType sf.2.2)) with
    | none => rfl
    | some pf =>
        rw [hlp] at h
        exact sliceLoop_error_unchanged field sf _ _ pf _ _ h

theorem handleTU_write_behavior (field : GoValue) (fname : String) (ftag : Tag)
    (fty : GoType) (value : String)
    (h : (handleTextUnmarshaler field value (fname, ftag, fty)).2 ≠ none) :
    (handleTextUnmarshaler field value (fname, ftag, fty)).1 = field ∨
    (field = .ptrV none ∧ ∃ pointee, fty = .ptr pointee ∧
      (handleTextUnmarshaler field value (fname, ftag, fty)).1 =
        .ptrV (some (zeroValue pointee))) := by
  cases fty with
  | ptr pointee =>
      cases field with
      | ptrV p =>
          by_cases hTU : implementsTU pointee = true
          · cases hu : textUnmarshal value with
            | error e =>
                cases p with
                | none =>
                    have heq : handleTextUnmarshaler (.ptrV none) value
                        (fname, ftag, .ptr pointee) =
                        (GoValue.ptrV (some (zeroValue pointee)),
                         newParseError (fname, ftag, .ptr pointee) (some e)) := by
                      simp [handleTextUnmarshaler, hTU, hu]
                    exact Or.inr ⟨rfl, pointee, rfl, by rw [heq]⟩
                | some inner =>
                    have heq : handleTextUnmarshaler (.ptrV (some inner)) value
                        (fname, ftag, .ptr pointee) =
                        (GoValue.ptrV (some inner),
                         newParseError (fname, ftag, .ptr pointee) (some e)) := by
                      simp [handleTextUnmarshaler, hTU, hu]
                    exact Or.inl (by rw [heq])
            | ok s =>
                have heq : (handleTextUnmarshaler (.ptrV p) value
                    (fname, ftag, .ptr pointee)).2 = none := by
                  cases p <;> simp [handleTextUnmarshaler, hTU, hu, newParseError]
                exact absurd heq h
          · cases p with
            | none =>
                have heq : handleTextUnmarshaler (.ptrV none) value
                    (fname, ftag, .ptr pointee) =
                    (GoValue.ptrV (some (zeroValue pointee)),
                     some (newNoParserError (fname, ftag, .ptr pointee))) := by
                  simp only [handleTextUnmarshaler, if_neg hTU]
                exact Or.inr ⟨rfl, pointee, rfl, by rw [heq]⟩
            | some inner =>
                have heq : handleTextUnmarshaler (.ptrV (some inner)) value
                    (fname, ftag, .ptr pointee) =
                    (GoValue.ptrV (some inner),
                     some (newNoParserError (fname, ftag, .ptr pointee))) := by
                  simp only [handleTextUnmarshaler, if_neg hTU]
                exact Or.inl (by rw [heq])
      | boolV b => left; rfl
      | strV s => left; rfl
      | intV n => left; rfl
      | uintV n => left; rfl
      | floatV q => left; rfl
      | sliceV l => left; rfl
      | structV l => left; rfl
      | textV t => left; rfl
  | scalar k name => left; rfl
  | slice e => left; rfl
  | struct n fs => left; rfl
  | text n =>
      cases hu : textUnmarshal value with
      | error e =>
          left
          have heq : handleTextUnmarshaler field value (fname, ftag, .text n) =
              (field, newParseError (fname, ftag, .text n) (some e)) := by
            simp [handleTextUnmarshaler, implementsTU, hu]
          rw [heq]
      | ok s =>
          have heq : (handleTextUnmarshaler field value (fname, ftag, .text n)).2 =
              none := by
            simp [handleTextUnmarshaler, implementsTU, hu, newParseError]
          exact absurd heq h

/-- C7 counterexample: a nil pointer field of a textual-unmarshaler type, on
a failing unmarshal, does *not* retain its prior value: the Value Setter
allocated it before unmarshaling, and the allocation persists alongside the
returned parse error. -/
theorem set_error_counterexample :
    set (.ptrV none) ("F", ({} : Tag), .ptr (.text "MyT")) "!bad" [] =
      (.ptrV (some (.textV none)),
       some (.parseFieldError "F" "*MyT" "cannot unmarshal \"!bad\"")) ∧
    GoValue.ptrV (some (.textV none)) ≠ GoValue.ptrV none :=
  ⟨rfl, by intro hc; injection hc with hc2; cases hc2⟩

/-- C7 (amended): when conversion fails, the field retains exactly the value
it had before the Value Setter ran — for the custom-registry, built-in and
collection paths — with one exception: in the textual-unmarshal path a
previously nil pointer field is first set to a freshly allocated zero value,
and that allocation persists when the unmarshal (or the capability check)
fails. -/
theorem set_error_write_behavior (field : GoValue) (sf : Field) (value : String)
    (fm : CustomParsers) (h : (set field sf value fm).2 ≠ none) :
    (set field sf value fm).1 = field ∨
    (field = .ptrV none ∧ ∃ pointee, sf.2.2 = .ptr pointee ∧
      (set field sf value fm).1 = .ptrV (some (zeroValue pointee))) := by
  obtain ⟨fname, ftag, fty⟩ := sf
  by_cases hks : kind fty = Kind.slice
  · left
    have hs : set field (fname, ftag, fty) value fm =
        handleSlice field value (fname, ftag, fty) fm := by
      simp only [set, if_pos hks]
    rw [hs] at h ⊢
    exact handleSlice_error_unchanged field value _ fm h
  · cases hlp : lookupParser fm fty with
    | some pf =>
        cases hpv : pf value with
        | error e =>
            have hs : set field (fname, ftag, fty) value fm =
                (field, newParseError (fname, ftag, fty) (some e)) := by
              simp only [set, if_neg hks, hlp, hpv]
            rw [hs]
            left; rfl
        | ok val =>
            have hs : set field (fname, ftag, fty) value fm = (val, none) := by
              simp only [set, if_neg hks, hlp, hpv]
            rw [hs] at h
            simp at h
    | none =>
        cases hbp : defaultBuiltInParsers (kind fty) with
        | some pf =>
            cases hpv : pf value with
            | error e =>
                have hs : set field (fname, ftag, fty) value fm =
                    (field, newParseError (fname, ftag, fty) (some e)) := by
                  simp only [set, if_neg hks, hlp, hbp, hpv]
                rw [hs]
                left; rfl
            | ok val =>
                have hs : set field (fname, ftag, fty) value fm = (val, none) := by
                  simp only [set, if_neg hks, hlp, hbp, hpv]
                rw [hs] at h
                simp at h
        | none =>
            have hs : set field (fname, ftag, fty) value fm =
                handleTextUnmarshaler field value (fname, ftag, fty) := by
              simp only [set, if_neg hks, hlp, hbp]
            rw [hs] at h ⊢
            exact handleTU_write_behavior field fname ftag fty value h

theorem set_error_write_behavior_witness :
    (set (.intV 7) ("F", ({} : Tag), intTy) "x" []).2 ≠ none ∧
    ((set (.intV 7) ("F", ({} : Tag), intTy) "x" []).1 = .intV 7 ∨
      (GoValue.intV 7 = .ptrV none ∧ ∃ pointee, intTy = .ptr pointee ∧
        (set (.intV 7) ("F", ({} : Tag), intTy) "x" []).1 =
          .ptrV (some (zeroValue pointee)))) :=
  ⟨by decide, set_error_write_behavior (.intV 7) ("F", ({} : Tag), intTy) "x" []
    (by decide)⟩

/-! ## Claim C8 -/

theorem doParseFields_prefix_ok (env : Env) (fm : CustomParsers) :
    ∀ (pre : List Field) (prevals prevals' : List GoValue)
      (rest : List Field) (restvals : List GoValue),
      pre.length = prevals.length →
      doParseFields env fm pre prevals = (prevals', none) →
      doParseFields env fm (pre ++ rest) (prevals ++ restvals) =
        (prevals' ++ (doParseFields env fm rest restvals).1,
         (doParseFields env fm rest restvals).2) := by
  intro pre
  induction pre with
  | nil =>
      intro prevals prevals' rest restvals hlen hpre
      cases prevals with
      | nil =>
          simp only [doParseFields, Prod.mk.injEq] at hpre
          rw [← hpre.1]
          simp
      | cons _ _ => simp at hlen
  | cons f pre' ih =>
      intro prevals prevals' rest restvals hlen hpre
      cases prevals with
      | nil => simp at hlen
      | cons v vs' =>
          obtain ⟨fname, ftag, fty⟩ := f
          have hlen' : pre'.length = vs'.length := by simpa using hlen
          simp only [doParseFields, List.cons_append, List.append_eq] at hpre ⊢
          by_cases hc : kind fty = Kind.ptr ∧ isNonNilPtr v = true
          · rw [if_pos hc] at hpre ⊢
            cases hres : (ParseWithFuncs env v fty []).2 with
            | some e =>
                rw [hres] at hpre
                simp at hpre
            | none =>
                rw [hres] at hpre
                simp only [Prod.mk.injEq] at hpre
                obtain ⟨h1, h2⟩ := hpre
                have hd : doParseFields env fm pre' vs' =
                    ((doParseFields env fm pre' vs').1, none) := by
                  rw [← h2]
                rw [ih vs' _ rest restvals hlen' hd, ← h1]
                simp
          · rw [if_neg hc] at hpre ⊢
            cases hg : (get env ftag).2 with
            | some e =>
                rw [hg] at hpre
                simp at hpre
            | none =>
                rw [hg] at hpre
                by_cases hval : (get env ftag).1 = ""
                · rw [if_pos hval] at hpre ⊢
                  by_cases hst : kind fty = Kind.struct
                  · rw [if_pos hst] at hpre ⊢
                    cases hdp : (doParse env v fty fm).2 with
                    | some e =>
                        rw [hdp] at hpre
                        simp at hpre
                    | none =>
                        rw [hdp] at hpre
                        simp only [Prod.mk.injEq] at hpre
                        obtain ⟨h1, h2⟩ := hpre
                        have hd : doParseFields env fm pre' vs' =
                            ((doParseFields env fm pre' vs').1, none) := by
                          rw [← h2]
                        rw [ih vs' _ rest restvals hlen' hd, ← h1]
                        simp
                  · rw [if_neg hst] at hpre ⊢
                    simp only [Prod.mk.injEq] at hpre
                    obtain ⟨h1, h2⟩ := hpre
                    have hd : doParseFields env fm pre' vs' =
                        ((doParseFields env fm pre' vs').1, none) := by
                      rw [← h2]
                    rw [ih vs' _ rest restvals hlen' hd, ← h1]
                    simp
                · rw [if_neg hval] at hpre ⊢
                  cases hs : (set v (fname, ftag, fty) (get env ftag).1 fm).2 with
                  | some e =>
                      rw [hs] at hpre
                      simp at hpre
                  | none =>
                      rw [hs] at hpre
                      simp only [Prod.mk.injEq] at hpre
                      obtain ⟨h1, h2⟩ := hpre
                      have hd : doParseFields env fm pre' vs' =
                          ((doParseFields env fm pre' vs').1, none) := by
                        rw [← h2]
                      rw [ih vs' _ rest restvals hlen' hd, ← h1]
                      simp

/-- C8: a non-nil (settable) pointer field whose pointee type is not a struct
is re-submitted to the top-level entry point, which rejects non-struct
pointees — so once the walker reaches such a field (all previous fields
having succeeded), the whole parse fails with `ErrNotAStructPtr`. -/
theorem ptr_nonstruct_field_fails (env : Env) (fm : CustomParsers)
    (sname fname : String) (ftag : Tag) (pt : GoType) (inner : GoValue)
    (pre post : List Field) (prevals postvals prevals' : List GoValue)
    (hlen : pre.length = prevals.length)
    (hpt : kind pt ≠ Kind.struct)
    (hpre : doParseFields env (mergeParsers fm) pre prevals = (prevals', none)) :
    ParseWithFuncs env
        (.ptrV (some (.structV (prevals ++ .ptrV (some inner) :: postvals))))
        (.ptr (.struct sname (pre ++ (fname, ftag, .ptr pt) :: post))) fm =
      (.ptrV (some (.structV (prevals' ++ .ptrV (some inner) :: postvals))),
       some ErrNotAStructPtr) := by
  have hstep : doParseFields env (mergeParsers fm)
      ((fname, ftag, .ptr pt) :: post) (.ptrV (some inner) :: postvals) =
      (.ptrV (some inner) :: postvals, some ErrNotAStructPtr) := by
    have hc : kind (GoType.ptr pt) = Kind.ptr ∧
        isNonNilPtr (GoValue.ptrV (some inner)) = true := ⟨rfl, rfl⟩
    have hsub : ParseWithFuncs env (.ptrV (some inner)) (.ptr pt) [] =
        (.ptrV (some inner), some ErrNotAStructPtr) := by
      simp only [ParseWithFuncs, if_neg hpt]
    simp only [doParseFields, if_pos hc, hsub]
  simp only [ParseWithFuncs, if_pos (show kind (GoType.struct sname
    (pre ++ (fname, ftag, GoType.ptr pt) :: post)) = Kind.struct from rfl),
    doParse]
  rw [doParseFields_prefix_ok env (mergeParsers fm) pre prevals prevals' _ _
    hlen hpre, hstep]

theorem ptr_nonstruct_field_fails_witness :
    ([] : List Field).length = ([] : List GoValue).length ∧
    kind intTy ≠ Kind.struct ∧
    doParseFields [] (mergeParsers []) [] [] = ([], none) ∧
    ParseWithFuncs [] (.ptrV (some (.structV [.ptrV (some (.intV 5))])))
        (.ptr (.struct "S" [("P", ({} : Tag), .ptr intTy)])) [] =
      (.ptrV (some (.structV [.ptrV (some (.intV 5))])), some ErrNotAStructPtr) := by
  refine ⟨rfl, by decide, rfl, ?_⟩
  exact ptr_nonstruct_field_fails [] [] "S" "P" ({} : Tag) intTy (.intV 5)
    [] [] [] [] [] rfl (by decide) rfl

end GoEnv
